import Mathlib

/-!
Verification development for the lnpbp-testkit repository.

Python strings are modelled as `List Char`.  Each definition below mirrors a
function or method of the repository; the source file and symbol are named in
the doc comment of the definition.
-/

namespace LnpbpTestkit

/-- Mirrors the semantics of the Python builtin `str.split(sep)` for a
single-character separator: `"a:b".split(":") == ["a", "b"]`,
`"".split(":") == [""]`, `":".split(":") == ["", ""]`. -/
def splitChar (sep : Char) : List Char → List (List Char)
  | [] => [[]]
  | c :: rest =>
    if c = sep then [] :: splitChar sep rest
    else
      match splitChar sep rest with
      | [] => [[c]]
      | w :: ws => (c :: w) :: ws

/-- Mirrors the Python builtin `str.startswith`: `startsWith p s` holds when
`p` is an initial segment of `s`. -/
def startsWith : List Char → List Char → Bool
  | [], _ => true
  | _ :: _, [] => false
  | p :: ps, c :: cs => p = c && startsWith ps cs

/-- Mirrors the Python builtin `str.find(sub)`: index of the first occurrence
of `needle` in the haystack, `none` when absent (Python returns `-1`). -/
def findSub (needle : List Char) : List Char → Option Nat
  | [] => if startsWith needle [] then some 0 else none
  | c :: rest =>
    if startsWith needle (c :: rest) then some 0
    else (findSub needle rest).map (· + 1)

/-- Mirrors `str.find(sub, pos)`: search starting at index `pos`, returning an
absolute index. -/
def findSubFrom (needle : List Char) (s : List Char) (pos : Nat) : Option Nat :=
  (findSub needle (s.drop pos)).map (pos + ·)

/-- The two payment request variants of `network.py`: `ChainPayment` carries
`address` and `amount` fields, `LightningPayment` carries `invoice`. -/
inductive PaymentRequest where
  | chainPayment (address : List Char) (amount : List Char)
  | lightningPayment (invoice : List Char)
deriving DecidableEq

/-- The distinct `InvalidPaymentLink` messages raised by `_parse_link` in
`network.py`, one constructor per raise site. -/
inductive LinkError where
  /-- Address cannot be parsed as a payment link because it is missing amount -/
  | missingAmount
  /-- Attempt to pay an invoice from a different network, only regtest is allowed -/
  | wrongNetwork
  /-- Unknown payment link format -/
  | unknownFormat
  /-- Unknown amount -/
  | unknownAmount
  /-- Invalid character question mark in the parameters -/
  | questionMarkInParams
  /-- Unknown schema -/
  | unknownSchema
deriving DecidableEq

/-- Embeds `_parse_link` of `src/lnpbp_testkit/network.py` (lines 92-136),
following the source line by line. -/
def parse_link (link : List Char) : Except LinkError PaymentRequest :=
  let parts := splitChar ':' link
  if parts.length = 1 then
    if startsWith ("1").toList link || startsWith ("3").toList link
        || startsWith ("bc1").toList link then
      .error .missingAmount
    else if startsWith ("lnbcrt").toList link then
      .ok (.lightningPayment link)
    else if startsWith ("ln").toList link then
      .error .wrongNetwork
    else
      .error .unknownFormat
  else
    let schema := parts.headD []
    if schema = ("bitcoin").toList then
      let qparts := splitChar '?' (link.drop (schema.length + 1))
      if qparts.length < 2 then .error .unknownAmount
      else if qparts.length > 2 then .error .questionMarkInParams
      else
        let address := qparts.headD []
        let params := qparts.getD 1 []
        let pos? : Option Nat :=
          if startsWith ("amount=").toList params then
            some ("amount=").toList.length
          else
            (findSub ("&amount=").toList params).map (· + ("&amount=").toList.length)
        match pos? with
        | none => .error .unknownAmount
        | some pos =>
          let stop :=
            match findSubFrom (['&']) params pos with
            | none => params.length
            | some e => e
          .ok (.chainPayment address ((params.drop pos).take (stop - pos)))
    else if schema = ("lightning").toList then
      .ok (.lightningPayment (link.drop (schema.length + 1)))
    else
      .error .unknownSchema

example : parse_link ("bitcoin:bcrt1qxyz?amount=0.5").toList
    = .ok (.chainPayment ("bcrt1qxyz").toList ("0.5").toList) := by rfl

example : parse_link ("bitcoin:bcrt1qxyz?label=a&amount=0.5").toList
    = .ok (.chainPayment ("bcrt1qxyz").toList ("0.5").toList) := by rfl

example : parse_link ("bitcoin:bcrt1qxyz?amount=0.5&label=a").toList
    = .ok (.chainPayment ("bcrt1qxyz").toList ("0.5").toList) := by rfl

example : parse_link ("lnbcrt1xyz").toList
    = .ok (.lightningPayment ("lnbcrt1xyz").toList) := by rfl

example : parse_link ("lnbc1xyz").toList = .error .wrongNetwork := by rfl

example : parse_link ("lightning:lnbc1xyz").toList
    = .ok (.lightningPayment ("lnbc1xyz").toList) := by rfl

example : parse_link ("1A1zP1").toList = .error .missingAmount := by rfl

example : parse_link ("hello").toList = .error .unknownFormat := by rfl

/-- Decimal digit character for a value below ten (values ten and above are
never passed; the catch-all returns the nine digit). -/
def digitChar : Nat → Char
  | 0 => '0'
  | 1 => '1'
  | 2 => '2'
  | 3 => '3'
  | 4 => '4'
  | 5 => '5'
  | 6 => '6'
  | 7 => '7'
  | 8 => '8'
  | _ => '9'

/-- Digit value of a character, `none` for non-digits. -/
def charDigit? (c : Char) : Option Nat :=
  if '0' ≤ c ∧ c ≤ '9' then some (c.toNat - ('0').toNat) else none

/-- Fuel-driven little-endian decimal digit extraction; `fuel ≥ n` suffices
because the argument strictly shrinks on division by ten. -/
def natDigitsRevFuel : Nat → Nat → List Char
  | _, 0 => []
  | 0, _ + 1 => []
  | fuel + 1, n + 1 => digitChar ((n + 1) % 10) :: natDigitsRevFuel fuel ((n + 1) / 10)

/-- Little-endian decimal digits of a natural number, empty for zero. -/
def natDigitsRev (n : Nat) : List Char := natDigitsRevFuel n n

theorem natDigitsRevFuel_congr :
    ∀ n fuel fuel2, n ≤ fuel → n ≤ fuel2 →
      natDigitsRevFuel fuel n = natDigitsRevFuel fuel2 n := by
  intro n
  induction n using Nat.strong_induction_on with
  | _ n ih =>
    intro fuel fuel2 h1 h2
    cases n with
    | zero => cases fuel <;> cases fuel2 <;> rfl
    | succ m =>
      cases fuel with
      | zero => omega
      | succ f1 =>
        cases fuel2 with
        | zero => omega
        | succ f2 =>
          simp only [natDigitsRevFuel]
          have hdiv : (m + 1) / 10 < m + 1 := Nat.div_lt_self (Nat.succ_pos m) (by omega)
          exact congrArg _ (ih _ hdiv f1 f2 (by omega) (by omega))

theorem natDigitsRev_succ (n : Nat) :
    natDigitsRev (n + 1) = digitChar ((n + 1) % 10) :: natDigitsRev ((n + 1) / 10) := by
  have hdiv : (n + 1) / 10 < n + 1 := Nat.div_lt_self (Nat.succ_pos n) (by omega)
  simp only [natDigitsRev, natDigitsRevFuel]
  exact congrArg _ (natDigitsRevFuel_congr _ n _ (by omega) le_rfl)

/-- Decimal rendering of a natural number, as Python `"%d" % n` produces. -/
def natToChars (n : Nat) : List Char :=
  if n = 0 then ['0'] else (natDigitsRev n).reverse

/-- Decimal rendering of an integer, as Python `"%d" % i` produces. -/
def intToChars (i : Int) : List Char :=
  if i < 0 then '-' :: natToChars i.natAbs else natToChars i.toNat

/-- Accumulator loop behind `strToNat?`. -/
def strToNatGo (acc : Nat) : List Char → Option Nat
  | [] => some acc
  | c :: rest =>
    match charDigit? c with
    | none => none
    | some d => strToNatGo (acc * 10 + d) rest

/-- Parses a nonempty all-digit string as a natural number, the success cases
of the Python builtin `int()` on nonnegative input. -/
def strToNat? (s : List Char) : Option Nat :=
  if s = [] then none else strToNatGo 0 s

/-- Parses an optionally minus-signed digit string as an integer, the success
cases of the Python builtin `int()`. -/
def strToInt? (s : List Char) : Option Int :=
  if s.headD ' ' = '-' then (strToNat? s.tail).map (fun n => -(n : Int))
  else (strToNat? s).map (fun n => (n : Int))

/-- The `P2PAddr` class of `src/lnpbp_testkit/lightning.py` (lines 18-36):
fields `pubkey`, `host`, `port`. -/
structure P2PAddr where
  pubkey : List Char
  host : List Char
  port : Int
deriving DecidableEq

/-- Failure modes of `P2PAddr.parse`: a tuple-unpacking mismatch of a `split`
result (Python `ValueError`), or `int()` rejecting the port string. -/
inductive AddrParseError where
  | unpackMismatch
  | invalidInt
deriving DecidableEq

/-- Embeds `P2PAddr.serialize` of `src/lnpbp_testkit/lightning.py`:
`"%s@%s:%d" % (pubkey, host, port)`. -/
def P2PAddr.serialize (a : P2PAddr) : List Char :=
  a.pubkey ++ '@' :: (a.host ++ ':' :: intToChars a.port)

/-- Embeds `P2PAddr.parse` of `src/lnpbp_testkit/lightning.py`:
`pubkey, host_port = addr.split(chr(64))` then `host, port_str =
host_port.split(chr(58))` then `int(port_str)`; each unpacking demands exactly
two pieces. -/
def P2PAddr.parse (addr : List Char) : Except AddrParseError P2PAddr :=
  match splitChar '@' addr with
  | [pubkey, host_port] =>
    match splitChar ':' host_port with
    | [host, port_str] =>
      match strToInt? port_str with
      | some port => .ok ⟨pubkey, host, port⟩
      | none => .error .invalidInt
    | _ => .error .unpackMismatch
  | _ => .error .unpackMismatch

example : P2PAddr.parse (P2PAddr.serialize ⟨("02ab").toList, ("localhost").toList, 9735⟩)
    = .ok ⟨("02ab").toList, ("localhost").toList, 9735⟩ := by rfl

/-- The `InvoiceHandle` class of `src/lnpbp_testkit/lightning.py` (lines
43-58); only the `_bolt11` field matters for the parsing claims, the node
handle has no bearing on them. -/
structure InvoiceHandle where
  bolt11Field : List Char
deriving DecidableEq

/-- Embeds `InvoiceHandle.bolt11`: returns `self._bolt11`. -/
def InvoiceHandle.bolt11 (h : InvoiceHandle) : List Char := h.bolt11Field

/-- Embeds `InvoiceHandle.uri`: `"lightning:%s" % self._bolt11`. -/
def InvoiceHandle.uri (h : InvoiceHandle) : List Char :=
  ("lightning:").toList ++ h.bolt11Field

/-! ### Auto-miner state machine (`Network` in `network.py`) -/

/-- A Python `threading.Thread` object as far as this code exercises it: the
constructor `threading.Thread(target=...)` creates it with `started = false`;
only a `start()` call would flip the flag, and `network.py` never makes that
call. -/
structure PyThread where
  started : Bool
deriving DecidableEq

/-- `threading.Thread(target = self._run_auto_miner)`: constructing a thread
object does not start it. -/
def Thread_new : PyThread := ⟨false⟩

/-- The auto-miner fields of the `Network` class (`network.py` lines 149-152),
with their class-level defaults. -/
structure AutoMinerState where
  auto_miner_running : Bool := false
  auto_miner_confirm_tx_block_count : Int := 6
  auto_miner_polling_interval : Int := 3
  auto_miner_thread : Option PyThread := none
deriving DecidableEq

/-- Exceptions surfacing from the auto-miner methods, one constructor per
raise site. -/
inductive MinerError where
  /-- Line 219 formats the message with the undefined name `count`, so a
  polling interval below one raises `NameError` rather than the intended
  `Exception`. -/
  | nameErrorCount
  /-- Auto miner is already running -/
  | alreadyRunning
  /-- Auto miner is not running -/
  | notRunning
  /-- Python `RuntimeError`: cannot join thread before it is started -/
  | joinBeforeStart
deriving DecidableEq

/-- `threading.Thread.join`: raises `RuntimeError` when the thread was never
started. -/
def PyThread.join (t : PyThread) : Except MinerError Unit :=
  if t.started then .ok () else .error .joinBeforeStart

/-- Embeds `Network.start_auto_mining` (`network.py` lines 201-229).  Note two
divergences of the source from its own docstring, reproduced faithfully here:
line 223 assigns `confirm_tx_block_count` to `_auto_miner_polling_interval`,
and the constructed thread is never started. -/
def start_auto_mining (s : AutoMinerState) (polling_interval_seconds : Int)
    (confirm_tx_block_count : Int) : AutoMinerState × Except MinerError Unit :=
  if polling_interval_seconds < 1 then (s, .error .nameErrorCount)
  else if s.auto_miner_running || s.auto_miner_thread.isSome then
    (s, .error .alreadyRunning)
  else
    ({ s with
        auto_miner_confirm_tx_block_count := confirm_tx_block_count,
        auto_miner_polling_interval := confirm_tx_block_count,
        auto_miner_running := true,
        auto_miner_thread := some Thread_new },
      .ok ())

/-- Embeds `Network.stop_auto_mining` (`network.py` lines 231-244).  The
running flag is cleared before `join`; when `join` raises, the exception
propagates and the thread field is not cleared. -/
def stop_auto_mining (s : AutoMinerState) : AutoMinerState × Except MinerError Unit :=
  match s.auto_miner_thread with
  | none => (s, .error .notRunning)
  | some t =>
    let s1 := { s with auto_miner_running := false }
    match t.join with
    | .error e => (s1, .error e)
    | .ok _ => ({ s1 with auto_miner_thread := none }, .ok ())

/-- Whether a spawned worker thread is actually executing: true only for a
thread that was started. -/
def workerActive (s : AutoMinerState) : Bool :=
  match s.auto_miner_thread with
  | some t => t.started
  | none => false

/-- Observable actions of one pass of the `_run_auto_miner` loop body. -/
inductive MinerAction where
  | queryMempool
  | mineBlocks (count : Int)
  | sleepSeconds (secs : Int)
deriving DecidableEq

/-- One iteration of the `_run_auto_miner` loop (`network.py` lines 246-254),
as the trace of collaborator actions it performs given the mempool size the
query returns: while the running flag holds, query the mempool, mine the
configured block count when the size is positive, then sleep the configured
interval. -/
def miner_iteration (s : AutoMinerState) (mempool_size : Int) : List MinerAction :=
  if s.auto_miner_running then
    .queryMempool ::
      ((if mempool_size > 0 then [.mineBlocks s.auto_miner_confirm_tx_block_count] else [])
        ++ [.sleepSeconds s.auto_miner_polling_interval])
  else []

/-- The auto-miner states reachable from a fresh `Network` through the two
public auto-miner methods. -/
inductive MinerReachable : AutoMinerState → Prop where
  | init : MinerReachable {}
  | start (s : AutoMinerState) (poll confirm : Int) :
      MinerReachable s → MinerReachable (start_auto_mining s poll confirm).1
  | stop (s : AutoMinerState) :
      MinerReachable s → MinerReachable (stop_auto_mining s).1

/-! ### Liquidity preparation (`Network._prepare_channel`) -/

/-- On-chain and channel mutations `_open_channel` performs (`network.py`
lines 348-361): funding the source wallet via `auto_pay_legacy`, opening the
channel, and mining confirmation blocks. -/
inductive ChainMutation where
  | fundWallet
  | openChannel
  | mineBlocks
deriving DecidableEq

/-- The mutation trace of one `_open_channel` call. -/
def open_channel_mutations : List ChainMutation :=
  [.fundWallet, .openChannel, .mineBlocks]

/-- The waiting loop of `_prepare_channel` (`network.py` lines 371-372):
repeatedly query `get_spendable_sat` until it reaches `amount_sat`.  The
collaborator is modelled as the sequence `spendable t` of values returned by
the successive queries; `fuel` bounds the number of loop iterations and the
result is the index of the query that observed sufficient balance. -/
def prepare_channel_wait (spendable : Nat → Int) (amount_sat : Int) :
    Nat → Nat → Option Nat
  | 0, _ => none
  | fuel + 1, t => if spendable t < amount_sat then prepare_channel_wait spendable amount_sat fuel (t + 1) else some t

/-- Embeds `Network._prepare_channel` (`network.py` lines 363-372).  Query 0
is the guard `source.get_spendable_sat(dest) < amount_sat`; when it shows a
shortfall the channel is opened (mutations recorded) and queries 1, 2, ... are
the waiting loop.  Returns the mutation trace together with the spendable
balance observed by the last query, or `none` when the waiting loop exceeds
its fuel. -/
def prepare_channel (spendable : Nat → Int) (amount_sat : Int) (fuel : Nat) :
    Option (List ChainMutation × Int) :=
  if spendable 0 < amount_sat then
    match prepare_channel_wait spendable amount_sat fuel 1 with
    | some t => some (open_channel_mutations, spendable t)
    | none => none
  else some ([], spendable 0)

/-! ### Scenario loading (`Network.load_scenario`) -/

/-- One `[nodes.NAME]` declaration of a scenario file: the table key and its
`type` field. -/
structure NodeDecl where
  name : List Char
  nodeType : List Char
deriving DecidableEq

/-- Membership in the character class of `NODE_NAME_RE = re.compile("[a-z0-9_-]*")`
(`network.py` line 22). -/
def validNameChar (c : Char) : Bool :=
  ('a' ≤ c && c ≤ 'z') || ('0' ≤ c && c ≤ '9') || c = '_' || c = '-'

/-- `NODE_NAME_RE.fullmatch(node_name)`: every character lies in the class
(the Kleene star accepts the empty name). -/
def validNodeName (s : List Char) : Bool := s.all validNameChar

/-- The two validation failures of the node loop of `load_scenario`. -/
inductive ScenarioError where
  /-- Invalid node name -/
  | invalidName
  /-- unsupported node type -/
  | unsupportedType
deriving DecidableEq

/-- The node loop of `Network.load_scenario` (`network.py` lines 460-471):
each declaration is validated and, when valid, immediately spawned
(`lnd.create_testkit_node` then `lnd.launch_testkit_node`) before the next
declaration is examined.  Returns the names spawned, in order, together with
the first validation error if any. -/
def load_scenario_nodes : List NodeDecl → List (List Char) →
    List (List Char) × Option ScenarioError
  | [], spawned => (spawned, none)
  | d :: rest, spawned =>
    if ¬ validNodeName d.name then (spawned, some .invalidName)
    else if d.nodeType ≠ ("lnd").toList then (spawned, some .unsupportedType)
    else load_scenario_nodes rest (spawned ++ [d.name])

/-- Entry point of the node-spawning phase of `load_scenario`: no node has
been spawned when the loop starts. -/
def load_scenario (decls : List NodeDecl) : List (List Char) × Option ScenarioError :=
  load_scenario_nodes decls []

/-! ### Lemmas about the string primitives -/

theorem splitChar_ne_nil (sep : Char) (s : List Char) : splitChar sep s ≠ [] := by
  induction s with
  | nil => exact List.cons_ne_nil _ _
  | cons c rest ih =>
    simp only [splitChar]
    split
    · exact List.cons_ne_nil _ _
    · split
      · exact List.cons_ne_nil _ _
      · exact List.cons_ne_nil _ _

theorem splitChar_of_not_mem (sep : Char) (s : List Char) (h : sep ∉ s) :
    splitChar sep s = [s] := by
  induction s with
  | nil => rfl
  | cons c rest ih =>
    rw [List.mem_cons, not_or] at h
    simp only [splitChar]
    rw [if_neg (fun hc => h.1 hc.symm), ih h.2]

theorem splitChar_append (sep : Char) (A B : List Char) (h : sep ∉ A) :
    splitChar sep (A ++ sep :: B) = A :: splitChar sep B := by
  induction A with
  | nil => simp [splitChar]
  | cons a A ih =>
    rw [List.mem_cons, not_or] at h
    simp only [List.cons_append, splitChar, List.append_eq]
    rw [if_neg (fun hc => h.1 hc.symm), ih h.2]

theorem startsWith_self_append (p t : List Char) : startsWith p (p ++ t) = true := by
  induction p with
  | nil => rfl
  | cons a p ih => simp [startsWith, ih]

theorem startsWith_cons_elim {a : Char} {p s : List Char}
    (h : startsWith (a :: p) s = true) : ∃ t, s = a :: t ∧ startsWith p t = true := by
  cases s with
  | nil => exact absurd h (by simp [startsWith])
  | cons c t =>
    simp only [startsWith, Bool.and_eq_true, decide_eq_true_eq] at h
    exact ⟨t, by rw [h.1], h.2⟩

theorem startsWith_of_append {n u v : List Char}
    (h : startsWith n (u ++ v) = true) (hlen : n.length ≤ u.length) :
    startsWith n u = true := by
  induction n generalizing u with
  | nil => rfl
  | cons x n ih =>
    cases u with
    | nil => simp at hlen
    | cons b u =>
      simp only [List.cons_append, startsWith, Bool.and_eq_true] at h ⊢
      exact ⟨h.1, ih h.2 (by simpa using hlen)⟩

theorem startsWith_getD {n u w : List Char} {c : Char}
    (h : startsWith n (u ++ c :: w) = true) (hlen : u.length < n.length) :
    n.getD u.length ' ' = c := by
  induction u generalizing n with
  | nil =>
    cases n with
    | nil => simp at hlen
    | cons x n =>
      simp only [List.nil_append, startsWith, Bool.and_eq_true, decide_eq_true_eq] at h
      simpa using h.1
  | cons b u ih =>
    cases n with
    | nil => simp at hlen
    | cons x n =>
      simp only [List.cons_append, startsWith, Bool.and_eq_true] at h
      simpa using ih h.2 (by simpa using hlen)

theorem findSub_singleton_of_not_mem {c : Char} {s : List Char} (h : c ∉ s) :
    findSub [c] s = none := by
  induction s with
  | nil => rfl
  | cons a rest ih =>
    rw [List.mem_cons, not_or] at h
    simp only [findSub, startsWith, Bool.and_true]
    rw [if_neg (by simpa using h.1), ih h.2]
    rfl

theorem findSub_singleton_append {c : Char} (A B : List Char) (h : c ∉ A) :
    findSub [c] (A ++ c :: B) = some A.length := by
  induction A with
  | nil => simp [findSub, startsWith]
  | cons a A ih =>
    rw [List.mem_cons, not_or] at h
    simp only [List.cons_append, findSub, startsWith, Bool.and_true, List.append_eq]
    rw [if_neg (by simpa using h.1), ih h.2]
    simp [List.length_cons]

theorem findSub_isSome_of_drop {n : List Char} :
    ∀ (s : List Char) (i : Nat), startsWith n (s.drop i) = true →
      (findSub n s).isSome = true := by
  intro s
  induction s with
  | nil =>
    intro i h
    rw [List.drop_nil] at h
    cases n with
    | nil => rfl
    | cons x xs => exact absurd h (by simp [startsWith])
  | cons a rest ih =>
    intro i h
    cases i with
    | zero =>
      rw [List.drop_zero] at h
      simp [findSub, h]
    | succ i =>
      rw [List.drop_succ_cons] at h
      simp only [findSub]
      split
      · rfl
      · simpa using ih i h

theorem findSub_append_self {n B : List Char} :
    ∀ A : List Char,
      (∀ i, i < A.length → startsWith n ((A ++ (n ++ B)).drop i) = false) →
      findSub n (A ++ (n ++ B)) = some A.length := by
  intro A
  induction A with
  | nil =>
    intro _
    cases n with
    | nil =>
      cases B with
      | nil => rfl
      | cons b bs => simp [findSub, startsWith]
    | cons x xs =>
      simp only [List.nil_append, List.cons_append, findSub]
      rw [if_pos (by simpa using startsWith_self_append (x :: xs) B)]
      simp
  | cons a A ih =>
    intro hno
    have h0 : startsWith n (a :: (A ++ (n ++ B))) = false := by
      simpa using hno 0 (by simp)
    simp only [List.cons_append, findSub, List.append_eq]
    rw [if_neg (by simp [h0]), ih (fun i hi => by simpa using hno (i + 1) (by simpa using hi))]
    simp [List.length_cons]

/-! ### Reduction lemmas for `parse_link` -/

theorem drop_append_cons (A R : List Char) (c : Char) :
    (A ++ c :: R).drop (A.length + 1) = R := by
  rw [show A ++ c :: R = (A ++ [c]) ++ R by simp]
  exact List.drop_left' (by simp)

theorem parse_link_of_not_mem_colon (s : List Char) (h : ':' ∉ s) :
    parse_link s =
      if startsWith (("1").toList) s || startsWith (("3").toList) s
          || startsWith (("bc1").toList) s then .error .missingAmount
      else if startsWith (("lnbcrt").toList) s then .ok (.lightningPayment s)
      else if startsWith (("ln").toList) s then .error .wrongNetwork
      else .error .unknownFormat := by
  unfold parse_link
  rw [splitChar_of_not_mem ':' s h]
  rfl

theorem parse_link_bitcoin_core (ADDR P : List Char) (pos stop2 : Nat)
    (hA : '?' ∉ ADDR) (hP : '?' ∉ P)
    (hpos : (if startsWith (("amount=").toList) P then some ((("amount=").toList).length)
             else (findSub (("&amount=").toList) P).map (· + (("&amount=").toList).length))
        = some pos)
    (hstop : (match findSubFrom ['&'] P pos with
              | none => P.length
              | some e => e) = stop2) :
    parse_link ((("bitcoin").toList) ++ ':' :: (ADDR ++ '?' :: P))
      = .ok (.chainPayment ADDR ((P.drop pos).take (stop2 - pos))) := by
  subst hstop
  have hnempty := splitChar_ne_nil ':' (ADDR ++ '?' :: P)
  have hq : splitChar '?' (ADDR ++ '?' :: P) = [ADDR, P] := by
    rw [splitChar_append '?' ADDR P hA, splitChar_of_not_mem '?' P hP]
  unfold parse_link
  rw [splitChar_append ':' (("bitcoin").toList) (ADDR ++ '?' :: P) (by decide)]
  simp only [List.length_cons, List.headD_cons]
  rw [if_neg (fun hc => hnempty (List.length_eq_zero.mp (by omega)))]
  simp only [if_true]
  rw [drop_append_cons, hq]
  simp only [List.length_cons, List.length_nil, List.getD_cons_succ, List.getD_cons_zero,
    List.headD_cons]
  rw [if_neg (by omega), if_neg (by omega), hpos]

theorem startsWith_amount_eq_false (OTHER X : List Char)
    (hno : findSub (("amount=").toList) OTHER = none) :
    startsWith (("amount=").toList) (OTHER ++ ((("&amount=").toList) ++ X)) = false := by
  by_contra hc
  rw [Bool.not_eq_false] at hc
  rcases le_or_lt ((("amount=").toList)).length OTHER.length with hle | hlt
  · have h1 := startsWith_of_append hc hle
    have h2 := findSub_isSome_of_drop OTHER 0 (by rw [List.drop_zero]; exact h1)
    rw [hno] at h2
    exact absurd h2 (by simp)
  · have e : OTHER ++ ((("&amount=").toList) ++ X)
        = OTHER ++ '&' :: ((("amount=").toList) ++ X) := rfl
    rw [e] at hc
    have h3 := startsWith_getD hc hlt
    have h4 : ∀ k, k < 7 → ((("amount=").toList)).getD k ' ' ≠ '&' := by decide
    exact h4 OTHER.length (by simpa using hlt) h3

theorem findSub_amp_amount (OTHER X : List Char)
    (hno : findSub (("amount=").toList) OTHER = none) :
    findSub (("&amount=").toList) (OTHER ++ ((("&amount=").toList) ++ X))
      = some OTHER.length := by
  apply findSub_append_self OTHER
  intro i hi
  by_contra hc
  rw [Bool.not_eq_false] at hc
  rw [List.drop_append_of_le_length (le_of_lt hi)] at hc
  have hulen : (OTHER.drop i).length = OTHER.length - i := List.length_drop i OTHER
  rcases le_or_lt ((("&amount=").toList)).length (OTHER.drop i).length with hle | hlt
  · have h1 := startsWith_of_append hc hle
    have e : (("&amount=").toList) = '&' :: (("amount=").toList) := rfl
    rw [e] at h1
    obtain ⟨t, hteq, hst⟩ := startsWith_cons_elim h1
    have ht : t = OTHER.drop (i + 1) := by
      have := congrArg List.tail hteq
      simpa [List.tail_drop] using this.symm
    have h2 := findSub_isSome_of_drop OTHER (i + 1) (ht ▸ hst)
    rw [hno] at h2
    exact absurd h2 (by simp)
  · have e : OTHER.drop i ++ ((("&amount=").toList) ++ X)
        = OTHER.drop i ++ '&' :: ((("amount=").toList) ++ X) := rfl
    rw [e] at hc
    have h3 := startsWith_getD hc hlt
    have h4 : ∀ k, k < 8 → 1 ≤ k → ((("&amount=").toList)).getD k ' ' ≠ '&' := by decide
    exact h4 (OTHER.drop i).length (by simpa using hlt) (by omega) h3

theorem startsWith_of_startsWith_append {p q s : List Char}
    (h : startsWith (p ++ q) s = true) : startsWith p s = true := by
  induction p generalizing s with
  | nil => rfl
  | cons a p ih =>
    cases s with
    | nil => exact absurd h (by simp [startsWith])
    | cons c t =>
      simp only [List.cons_append, startsWith, Bool.and_eq_true] at h ⊢
      exact ⟨h.1, ih h.2⟩

theorem parse_link_lightning_rest (rest : List Char) :
    parse_link ((("lightning:").toList) ++ rest) = .ok (.lightningPayment rest) := by
  show parse_link ((("lightning").toList) ++ ':' :: rest) = _
  have hnempty := splitChar_ne_nil ':' rest
  unfold parse_link
  rw [splitChar_append ':' (("lightning").toList) rest (by decide)]
  simp only [List.length_cons, List.headD_cons]
  rw [if_neg (fun hc => hnempty (List.length_eq_zero.mp (by omega)))]
  rw [if_neg (by decide)]
  simp only [if_true]
  rw [drop_append_cons]

/-! ### Claim theorems about the payment link parser -/

/-- Claim C3: for every address string ADDR not containing a question mark and
amount string X containing neither an ampersand nor a question mark, parsing
`bitcoin:ADDR?amount=X` yields `ChainPayment ADDR X`; the same `ChainPayment`
results when `amount=` appears after other ampersand-separated parameters
(parameters not containing a question mark and not containing the substring
`amount=`); and when `amount=` is the first parameter its value extends to the
first following ampersand or, if none, to the end of the string. -/
theorem claim_C3_bip21_amount (ADDR X OTHER REST : List Char)
    (hA : '?' ∉ ADDR) (hX1 : '&' ∉ X) (hX2 : '?' ∉ X)
    (hO1 : '?' ∉ OTHER) (hO2 : findSub (("amount=").toList) OTHER = none)
    (hR : '?' ∉ REST) :
    parse_link ((("bitcoin:").toList) ++ ADDR ++ (("?amount=").toList) ++ X)
      = .ok (.chainPayment ADDR X)
    ∧ parse_link ((("bitcoin:").toList) ++ ADDR
        ++ '?' :: (OTHER ++ (("&amount=").toList) ++ X))
      = .ok (.chainPayment ADDR X)
    ∧ parse_link ((("bitcoin:").toList) ++ ADDR ++ (("?amount=").toList) ++ X
        ++ '&' :: REST)
      = .ok (.chainPayment ADDR X) := by
  refine ⟨?_, ?_, ?_⟩
  · -- amount is the only parameter, value extends to the end of the string
    have hP : '?' ∉ (("amount=").toList) ++ X := by
      simp only [List.mem_append]
      rintro (hmem | hmem)
      · exact absurd hmem (by decide)
      · exact hX2 hmem
    have hpos : (if startsWith (("amount=").toList) ((("amount=").toList) ++ X)
          then some ((("amount=").toList).length)
          else (findSub (("&amount=").toList) ((("amount=").toList) ++ X)).map
            (· + (("&amount=").toList).length)) = some 7 := by
      rw [if_pos (startsWith_self_append _ _)]
      rfl
    have hstop : (match findSubFrom ['&'] ((("amount=").toList) ++ X) 7 with
          | none => ((("amount=").toList) ++ X).length
          | some e => e) = 7 + X.length := by
      unfold findSubFrom
      rw [show ((("amount=").toList) ++ X).drop 7 = X from List.drop_left' (by rfl)]
      rw [findSub_singleton_of_not_mem hX1]
      show ((("amount=").toList) ++ X).length = 7 + X.length
      rw [List.length_append, show ((("amount=").toList)).length = 7 from rfl]
    have hres := parse_link_bitcoin_core ADDR ((("amount=").toList) ++ X) 7 (7 + X.length)
      hA hP hpos hstop
    have elink : (("bitcoin:").toList) ++ ADDR ++ (("?amount=").toList) ++ X
        = (("bitcoin").toList) ++ ':' :: (ADDR ++ '?' :: ((("amount=").toList) ++ X)) := by
      simp only [List.append_assoc]
      rfl
    rw [elink, hres, show (((("amount=").toList) ++ X).drop 7).take (7 + X.length - 7) = X by
      rw [List.drop_left' (by rfl)]
      simp]
  · -- amount appears after other parameters
    have hP : '?' ∉ OTHER ++ ((("&amount=").toList) ++ X) := by
      simp only [List.mem_append]
      rintro (hmem | hmem | hmem)
      · exact hO1 hmem
      · exact absurd hmem (by decide)
      · exact hX2 hmem
    have hpos : (if startsWith (("amount=").toList) (OTHER ++ ((("&amount=").toList) ++ X))
          then some ((("amount=").toList).length)
          else (findSub (("&amount=").toList) (OTHER ++ ((("&amount=").toList) ++ X))).map
            (· + (("&amount=").toList).length)) = some (OTHER.length + 8) := by
      rw [if_neg (fun hc =>
        absurd ((startsWith_amount_eq_false OTHER X hO2).symm.trans hc) (by decide))]
      rw [findSub_amp_amount OTHER X hO2]
      rfl
    have hdropP : (OTHER ++ ((("&amount=").toList) ++ X)).drop (OTHER.length + 8) = X := by
      rw [show OTHER ++ ((("&amount=").toList) ++ X)
          = (OTHER ++ (("&amount=").toList)) ++ X by simp]
      exact List.drop_left' (by simp)
    have hstop : (match findSubFrom ['&'] (OTHER ++ ((("&amount=").toList) ++ X))
            (OTHER.length + 8) with
          | none => (OTHER ++ ((("&amount=").toList) ++ X)).length
          | some e => e) = OTHER.length + 8 + X.length := by
      unfold findSubFrom
      rw [hdropP, findSub_singleton_of_not_mem hX1]
      show (OTHER ++ ((("&amount=").toList) ++ X)).length = OTHER.length + 8 + X.length
      rw [List.length_append, List.length_append,
        show ((("&amount=").toList)).length = 8 from rfl]
      omega
    have hres := parse_link_bitcoin_core ADDR (OTHER ++ ((("&amount=").toList) ++ X))
      (OTHER.length + 8) (OTHER.length + 8 + X.length) hA hP hpos hstop
    have elink : (("bitcoin:").toList) ++ ADDR
          ++ '?' :: (OTHER ++ (("&amount=").toList) ++ X)
        = (("bitcoin").toList)
          ++ ':' :: (ADDR ++ '?' :: (OTHER ++ ((("&amount=").toList) ++ X))) := by
      simp only [List.append_assoc]
      rfl
    rw [elink, hres, hdropP]
    simp
  · -- amount is the first parameter and its value stops at the ampersand
    have hP : '?' ∉ (("amount=").toList) ++ (X ++ '&' :: REST) := by
      simp only [List.mem_append, List.mem_cons]
      rintro (hmem | hmem | hmem | hmem)
      · exact absurd hmem (by decide)
      · exact hX2 hmem
      · exact absurd hmem (by decide)
      · exact hR hmem
    have hpos : (if startsWith (("amount=").toList)
            ((("amount=").toList) ++ (X ++ '&' :: REST))
          then some ((("amount=").toList).length)
          else (findSub (("&amount=").toList)
            ((("amount=").toList) ++ (X ++ '&' :: REST))).map
            (· + (("&amount=").toList).length)) = some 7 := by
      rw [if_pos (startsWith_self_append _ _)]
      rfl
    have hstop : (match findSubFrom ['&'] ((("amount=").toList) ++ (X ++ '&' :: REST)) 7 with
          | none => ((("amount=").toList) ++ (X ++ '&' :: REST)).length
          | some e => e) = 7 + X.length := by
      unfold findSubFrom
      rw [show ((("amount=").toList) ++ (X ++ '&' :: REST)).drop 7 = X ++ '&' :: REST from
        List.drop_left' (by rfl)]
      rw [findSub_singleton_append X REST hX1]
      rfl
    have hres := parse_link_bitcoin_core ADDR ((("amount=").toList) ++ (X ++ '&' :: REST))
      7 (7 + X.length) hA hP hpos hstop
    have elink : (("bitcoin:").toList) ++ ADDR ++ (("?amount=").toList) ++ X ++ '&' :: REST
        = (("bitcoin").toList)
          ++ ':' :: (ADDR ++ '?' :: ((("amount=").toList) ++ (X ++ '&' :: REST))) := by
      simp only [List.append_assoc]
      rfl
    rw [elink, hres, show ((((("amount=").toList) ++ (X ++ '&' :: REST)).drop 7).take
        (7 + X.length - 7)) = X by
      rw [List.drop_left' (by rfl)]
      simp [List.take_left]]

/-- Claim C3 witness: the three forms evaluated on a concrete address, amount
and extra parameters. -/
theorem claim_C3_bip21_amount_witness :
    parse_link (("bitcoin:bcrt1q?amount=0.1").toList)
      = .ok (.chainPayment (("bcrt1q").toList) (("0.1").toList)) := by
  have h := claim_C3_bip21_amount (("bcrt1q").toList) (("0.1").toList)
    (("label=x").toList) (("label=y").toList)
    (by decide) (by decide) (by decide) (by decide) (by decide) (by decide)
  exact h.1

theorem startsWith_head_false {a b : Char} (p t : List Char) (h : a ≠ b) :
    startsWith (a :: p) (b :: t) = false := by
  simp [startsWith, h]

/-- Claim C4 counterexample: a mainnet `lnbc` invoice carried under the
`lightning:` scheme is accepted as a `LightningPayment` rather than rejected
with the wrong-network error, contradicting the claim that the remainder is
treated exactly as the bare-invoice case. -/
theorem claim_C4_counterexample :
    parse_link (("lightning:lnbc1xyz").toList)
        = .ok (.lightningPayment (("lnbc1xyz").toList))
    ∧ parse_link (("lightning:lnbc1xyz").toList) ≠ .error .wrongNetwork := by
  refine ⟨rfl, fun h => ?_⟩
  rw [show parse_link (("lightning:lnbc1xyz").toList)
      = .ok (.lightningPayment (("lnbc1xyz").toList)) from rfl] at h
  exact Except.noConfusion h

/-- Claim C4 amended: for every input beginning with the scheme `lightning:`,
parse returns a `LightningPayment` whose invoice is the remainder, with no
network validation at all: an `lnbcrt` remainder yields a `LightningPayment`,
and a remainder with any other prefix (such as a mainnet `lnbc` invoice) also
yields a `LightningPayment` instead of failing. -/
theorem claim_C4_lightning_scheme (rest : List Char) :
    parse_link ((("lightning:").toList) ++ rest) = .ok (.lightningPayment rest) :=
  parse_link_lightning_rest rest

/-- Claim C7: every input string containing no colon is classified into
exactly one outcome: a leading `1`, `3` or `bc1` fails with the missing-amount
error; a leading `lnbcrt` yields a `LightningPayment`; any other leading `ln`
fails with the wrong-network error; everything else fails with the
unknown-format error. -/
theorem claim_C7_bare_classification (s : List Char) (h : ':' ∉ s) :
    ((startsWith (("1").toList) s || startsWith (("3").toList) s
        || startsWith (("bc1").toList) s) = true →
      parse_link s = .error .missingAmount)
    ∧ (startsWith (("lnbcrt").toList) s = true →
      parse_link s = .ok (.lightningPayment s))
    ∧ (startsWith (("ln").toList) s = true → startsWith (("lnbcrt").toList) s = false →
      parse_link s = .error .wrongNetwork)
    ∧ ((startsWith (("1").toList) s || startsWith (("3").toList) s
        || startsWith (("bc1").toList) s) = false →
      startsWith (("ln").toList) s = false →
      parse_link s = .error .unknownFormat) := by
  rw [parse_link_of_not_mem_colon s h]
  refine ⟨fun h1 => ?_, fun h2 => ?_, fun h3 h4 => ?_, fun h5 h6 => ?_⟩
  · rw [if_pos h1]
  · have h2x : startsWith ('l' :: (("nbcrt").toList)) s = true := h2
    obtain ⟨t, hts, _⟩ := startsWith_cons_elim h2x
    subst hts
    rw [if_neg ?_, if_pos h2]
    rw [show (("1").toList) = ['1'] from rfl, show (("3").toList) = ['3'] from rfl,
      show (("bc1").toList) = 'b' :: (("c1").toList) from rfl]
    rw [startsWith_head_false _ _ (by decide), startsWith_head_false _ _ (by decide),
      startsWith_head_false _ _ (by decide)]
    simp
  · have h3x : startsWith ('l' :: (("n").toList)) s = true := h3
    obtain ⟨t, hts, _⟩ := startsWith_cons_elim h3x
    subst hts
    rw [if_neg ?_, if_neg (fun hc => by rw [h4] at hc; exact Bool.noConfusion hc), if_pos h3]
    rw [show (("1").toList) = ['1'] from rfl, show (("3").toList) = ['3'] from rfl,
      show (("bc1").toList) = 'b' :: (("c1").toList) from rfl]
    rw [startsWith_head_false _ _ (by decide), startsWith_head_false _ _ (by decide),
      startsWith_head_false _ _ (by decide)]
    simp
  · have h7 : startsWith (("lnbcrt").toList) s = false := by
      by_contra hc
      rw [Bool.not_eq_false] at hc
      have := startsWith_of_startsWith_append
        (p := (("ln").toList)) (q := (("bcrt").toList)) hc
      rw [h6] at this
      exact Bool.noConfusion this
    rw [if_neg (fun hc => by rw [h5] at hc; exact Bool.noConfusion hc),
      if_neg (fun hc => by rw [h7] at hc; exact Bool.noConfusion hc),
      if_neg (fun hc => by rw [h6] at hc; exact Bool.noConfusion hc)]

/-- Claim C7 witness: the four outcomes evaluated at concrete inputs through
the classification theorem. -/
theorem claim_C7_bare_classification_witness :
    parse_link (("lnbcrt1q").toList) = .ok (.lightningPayment (("lnbcrt1q").toList))
    ∧ parse_link (("1addr").toList) = .error .missingAmount
    ∧ parse_link (("lnbc9").toList) = .error .wrongNetwork
    ∧ parse_link (("hello").toList) = .error .unknownFormat := by
  refine ⟨?_, ?_, ?_, ?_⟩
  · exact (claim_C7_bare_classification (("lnbcrt1q").toList) (by decide)).2.1 (by decide)
  · exact (claim_C7_bare_classification (("1addr").toList) (by decide)).1 (by decide)
  · exact (claim_C7_bare_classification (("lnbc9").toList) (by decide)).2.2.1
      (by decide) (by decide)
  · exact (claim_C7_bare_classification (("hello").toList) (by decide)).2.2.2
      (by decide) (by decide)

/-- Claim C10: feeding the payment URI rendering of an invoice handle back
into the payment-link parser yields a `LightningPayment` whose invoice string
equals the handle's bolt11 string exactly, regardless of the network prefix of
the invoice. -/
theorem claim_C10_uri_roundtrip (h : InvoiceHandle) :
    parse_link h.uri = .ok (.lightningPayment h.bolt11) :=
  parse_link_lightning_rest h.bolt11Field

/-! ### Decimal rendering and parsing lemmas, for the `P2PAddr` round trip -/

theorem charDigit?_digitChar : ∀ d, d < 10 → charDigit? (digitChar d) = some d := by
  decide

theorem digitChar_ne : ∀ d, d < 10 →
    digitChar d ≠ ':' ∧ digitChar d ≠ '@' ∧ digitChar d ≠ '-' := by
  decide

theorem strToNatGo_append (u v : List Char) (acc : Nat) :
    strToNatGo acc (u ++ v) =
      match strToNatGo acc u with
      | none => none
      | some a => strToNatGo a v := by
  induction u generalizing acc with
  | nil => rfl
  | cons c u ih =>
    simp only [List.cons_append, strToNatGo]
    cases charDigit? c with
    | none => rfl
    | some d => exact ih _

theorem strToNatGo_digits :
    ∀ n acc, strToNatGo acc ((natDigitsRev n).reverse)
      = some (acc * 10 ^ (natDigitsRev n).length + n) := by
  intro n
  induction n using Nat.strong_induction_on with
  | _ n ih =>
    intro acc
    cases n with
    | zero => simp [natDigitsRev, natDigitsRevFuel, strToNatGo]
    | succ m =>
      rw [natDigitsRev_succ]
      have hdiv : (m + 1) / 10 < m + 1 := Nat.div_lt_self (Nat.succ_pos m) (by omega)
      have hmod : (m + 1) % 10 < 10 := Nat.mod_lt _ (by omega)
      rw [List.reverse_cons, strToNatGo_append, ih _ hdiv acc]
      simp only [strToNatGo, charDigit?_digitChar _ hmod]
      rw [List.length_cons]
      congr 1
      have hqr : (m + 1) / 10 * 10 + (m + 1) % 10 = m + 1 := by omega
      rw [pow_succ]
      calc (acc * 10 ^ (natDigitsRev ((m + 1) / 10)).length + (m + 1) / 10) * 10
            + (m + 1) % 10
          = acc * (10 ^ (natDigitsRev ((m + 1) / 10)).length * 10)
            + ((m + 1) / 10 * 10 + (m + 1) % 10) := by ring
        _ = acc * (10 ^ (natDigitsRev ((m + 1) / 10)).length * 10) + (m + 1) := by rw [hqr]

theorem strToNat?_natToChars (n : Nat) : strToNat? (natToChars n) = some n := by
  cases n with
  | zero => rfl
  | succ m =>
    have hne : natToChars (m + 1) ≠ [] := by
      rw [show natToChars (m + 1) = (natDigitsRev (m + 1)).reverse from if_neg (by omega)]
      rw [natDigitsRev_succ]
      simp
    rw [strToNat?, if_neg hne,
      show natToChars (m + 1) = (natDigitsRev (m + 1)).reverse from if_neg (by omega),
      strToNatGo_digits (m + 1) 0]
    simp

theorem mem_natToChars {c : Char} {n : Nat} (h : c ∈ natToChars n) :
    ∃ d, d < 10 ∧ c = digitChar d := by
  have core : ∀ m, ∀ x, x ∈ natDigitsRev m → ∃ d, d < 10 ∧ x = digitChar d := by
    intro m
    induction m using Nat.strong_induction_on with
    | _ m ih =>
      intro x hx
      cases m with
      | zero => exact absurd hx (by simp [natDigitsRev, natDigitsRevFuel])
      | succ k =>
        rw [natDigitsRev_succ, List.mem_cons] at hx
        have hdiv : (k + 1) / 10 < k + 1 := Nat.div_lt_self (Nat.succ_pos k) (by omega)
        rcases hx with hx | hx
        · exact ⟨(k + 1) % 10, Nat.mod_lt _ (by omega), hx⟩
        · exact ih _ hdiv x hx
  by_cases h0 : n = 0
  · subst h0
    refine ⟨0, by omega, ?_⟩
    simpa [natToChars] using h
  · rw [natToChars, if_neg h0, List.mem_reverse] at h
    exact core n c h

theorem mem_intToChars {c : Char} {i : Int} (h : c ∈ intToChars i) :
    c = '-' ∨ ∃ d, d < 10 ∧ c = digitChar d := by
  unfold intToChars at h
  split at h
  · rw [List.mem_cons] at h
    rcases h with h | h
    · exact Or.inl h
    · exact Or.inr (mem_natToChars h)
  · exact Or.inr (mem_natToChars h)

theorem colon_not_mem_intToChars (i : Int) : ':' ∉ intToChars i := by
  intro h
  rcases mem_intToChars h with h | ⟨d, hd, h⟩
  · exact absurd h (by decide)
  · exact (digitChar_ne d hd).1 h.symm

theorem at_not_mem_intToChars (i : Int) : '@' ∉ intToChars i := by
  intro h
  rcases mem_intToChars h with h | ⟨d, hd, h⟩
  · exact absurd h (by decide)
  · exact (digitChar_ne d hd).2.1 h.symm

theorem natToChars_headD_ne_minus (n : Nat) : (natToChars n).headD ' ' ≠ '-' := by
  have hne : natToChars n ≠ [] := by
    cases n with
    | zero => simp [natToChars]
    | succ m =>
      rw [natToChars, if_neg (by omega), natDigitsRev_succ]
      simp
  have hmem : (natToChars n).headD ' ' ∈ natToChars n := by
    cases he : natToChars n with
    | nil => exact absurd he hne
    | cons c t => simp
  rcases mem_natToChars hmem with ⟨d, hd, hh⟩
  rw [hh]
  exact (digitChar_ne d hd).2.2

theorem strToInt?_intToChars (i : Int) : strToInt? (intToChars i) = some i := by
  by_cases hneg : i < 0
  · rw [show intToChars i = '-' :: natToChars i.natAbs from if_pos hneg]
    rw [strToInt?]
    simp only [List.headD_cons, List.tail_cons, if_pos rfl]
    rw [strToNat?_natToChars]
    show some (-((i.natAbs : Nat) : Int)) = some i
    congr 1
    omega
  · rw [show intToChars i = natToChars i.toNat from if_neg hneg]
    rw [strToInt?, if_neg (natToChars_headD_ne_minus i.toNat), strToNat?_natToChars]
    show some ((i.toNat : Nat) : Int) = some i
    congr 1
    omega

/-- Claim C9 counterexample: the round trip fails for a constructed address
whose pubkey contains an at sign; `serialize` then yields a string with two at
signs and `parse` raises a `ValueError` from tuple unpacking instead of
returning the address. -/
theorem claim_C9_counterexample :
    P2PAddr.parse (P2PAddr.serialize ⟨("a@b").toList, ("h").toList, 1⟩)
        = .error .unpackMismatch
    ∧ P2PAddr.parse (P2PAddr.serialize ⟨("a@b").toList, ("h").toList, 1⟩)
        ≠ .ok ⟨("a@b").toList, ("h").toList, 1⟩ := by
  refine ⟨rfl, fun hc => ?_⟩
  rw [show P2PAddr.parse (P2PAddr.serialize ⟨("a@b").toList, ("h").toList, 1⟩)
      = .error .unpackMismatch from rfl] at hc
  exact Except.noConfusion hc

/-- Claim C9 amended: for every constructed address whose pubkey contains no
at sign and whose host contains neither an at sign nor a colon,
`P2PAddr.parse (addr.serialize())` returns an address equal to `addr` (same
pubkey, host and port). -/
theorem claim_C9_roundtrip (a : P2PAddr)
    (h1 : '@' ∉ a.pubkey) (h2 : '@' ∉ a.host) (h3 : ':' ∉ a.host) :
    P2PAddr.parse a.serialize = .ok a := by
  have hhp : '@' ∉ a.host ++ ':' :: intToChars a.port := by
    simp only [List.mem_append, List.mem_cons]
    rintro (hmem | hmem | hmem)
    · exact h2 hmem
    · exact absurd hmem (by decide)
    · exact at_not_mem_intToChars a.port hmem
  unfold P2PAddr.serialize P2PAddr.parse
  rw [splitChar_append '@' a.pubkey _ h1, splitChar_of_not_mem '@' _ hhp]
  show (match splitChar ':' (a.host ++ ':' :: intToChars a.port) with
    | [host, port_str] =>
      match strToInt? port_str with
      | some port => Except.ok (⟨a.pubkey, host, port⟩ : P2PAddr)
      | none => Except.error AddrParseError.invalidInt
    | _ => Except.error AddrParseError.unpackMismatch) = Except.ok a
  rw [splitChar_append ':' a.host _ h3,
    splitChar_of_not_mem ':' _ (colon_not_mem_intToChars a.port)]
  show (match strToInt? (intToChars a.port) with
    | some port => Except.ok (⟨a.pubkey, a.host, port⟩ : P2PAddr)
    | none => Except.error AddrParseError.invalidInt) = Except.ok a
  rw [strToInt?_intToChars]

/-- Claim C9 witness: the amended round trip at a concrete address. -/
theorem claim_C9_roundtrip_witness :
    P2PAddr.parse (P2PAddr.serialize ⟨("02abcd").toList, ("127.0.0.1").toList, 9735⟩)
      = .ok ⟨("02abcd").toList, ("127.0.0.1").toList, 9735⟩ :=
  claim_C9_roundtrip _ (by decide) (by decide) (by decide)

/-! ### Claim theorems about the auto-miner -/

/-- Claim C1 (code bug exhibit): a successful `start_auto_mining(5, 6)` stores
the confirm block count, not the polling interval argument, into
`_auto_miner_polling_interval` (line 223), and the worker thread is
constructed but never started, so no background worker runs; the loop body, if
it ever ran, would sleep the stored interval of six seconds rather than the
requested five. -/
theorem claim_C1_start_auto_mining_bug :
    (start_auto_mining {} 5 6).2 = .ok ()
    ∧ (start_auto_mining {} 5 6).1.auto_miner_polling_interval = 6
    ∧ (start_auto_mining {} 5 6).1.auto_miner_polling_interval ≠ 5
    ∧ workerActive (start_auto_mining {} 5 6).1 = false
    ∧ miner_iteration (start_auto_mining {} 5 6).1 1
        = [.queryMempool, .mineBlocks 6, .sleepSeconds 6] :=
  ⟨rfl, rfl, by decide, rfl, rfl⟩

/-- Claim C2 (code bug exhibit): after a successful `start_auto_mining`,
`stop_auto_mining` raises: it calls `join()` on a thread object that was never
started, which is a Python `RuntimeError`, instead of returning normally. -/
theorem claim_C2_stop_auto_mining_raises :
    (start_auto_mining {} 3 6).2 = .ok ()
    ∧ (stop_auto_mining (start_auto_mining {} 3 6).1).2 = .error .joinBeforeStart :=
  ⟨rfl, rfl⟩

theorem minerReachable_invariant (s : AutoMinerState) (h : MinerReachable s) :
    (s.auto_miner_running = true → s.auto_miner_thread.isSome = true)
    ∧ (∀ t, s.auto_miner_thread = some t → t.started = false) := by
  induction h with
  | init => exact ⟨fun hr => Bool.noConfusion hr, fun t ht => Option.noConfusion ht⟩
  | start s poll confirm hs ih =>
    unfold start_auto_mining
    split
    · exact ih
    · split
      · exact ih
      · exact ⟨fun _ => rfl, fun t ht => by
          rw [(Option.some.inj ht).symm]
          rfl⟩
  | stop s hs ih =>
    unfold stop_auto_mining
    split
    · exact ih
    · rename_i t ht
      have hstart : t.started = false := ih.2 t ht
      rw [show t.join = Except.error MinerError.joinBeforeStart from by
        unfold PyThread.join
        rw [hstart]
        rfl]
      exact ⟨fun hr => Bool.noConfusion hr, fun t2 ht2 => ih.2 t2 ht2⟩

/-- Claim C8: in every reachable state of the orchestrator, starting the auto
miner while it is running raises an error, stopping it while it is not running
raises an error, and at most one (in fact, with the missing thread start, not
even one) background worker is ever active. -/
theorem claim_C8_miner_guard (s : AutoMinerState) (h : MinerReachable s) :
    (∀ poll confirm, s.auto_miner_running = true →
      ∃ e, (start_auto_mining s poll confirm).2 = .error e)
    ∧ (s.auto_miner_running = false → ∃ e, (stop_auto_mining s).2 = .error e)
    ∧ workerActive s = false := by
  have inv := minerReachable_invariant s h
  refine ⟨?_, ?_, ?_⟩
  · intro poll confirm hr
    by_cases hp : poll < 1
    · exact ⟨.nameErrorCount, by unfold start_auto_mining; rw [if_pos hp]⟩
    · refine ⟨.alreadyRunning, ?_⟩
      unfold start_auto_mining
      rw [if_neg hp, if_pos (by rw [hr]; rfl)]
  · intro _
    unfold stop_auto_mining
    split
    · exact ⟨.notRunning, rfl⟩
    · rename_i t ht
      have hstart : t.started = false := inv.2 t ht
      refine ⟨.joinBeforeStart, ?_⟩
      rw [show t.join = Except.error MinerError.joinBeforeStart from by
        unfold PyThread.join
        rw [hstart]
        rfl]
  · unfold workerActive
    cases ht : s.auto_miner_thread with
    | none => rfl
    | some t => exact inv.2 t ht

/-- Claim C8 witness: the guards evaluated from the initial state and from the
state after one successful start. -/
theorem claim_C8_miner_guard_witness :
    (∃ e, (stop_auto_mining {}).2 = Except.error e)
    ∧ (∃ e, (start_auto_mining (start_auto_mining {} 3 6).1 3 6).2 = Except.error e) := by
  have h0 := claim_C8_miner_guard {} MinerReachable.init
  have h1 := claim_C8_miner_guard (start_auto_mining {} 3 6).1
    (MinerReachable.start {} 3 6 MinerReachable.init)
  exact ⟨h0.2.1 rfl, h1.1 3 6 rfl⟩

/-! ### Claim theorems about liquidity preparation -/

theorem prepare_channel_wait_ge (spendable : Nat → Int) (amount : Int) :
    ∀ fuel t tf, prepare_channel_wait spendable amount fuel t = some tf →
      amount ≤ spendable tf := by
  intro fuel
  induction fuel with
  | zero => exact fun t tf h => Option.noConfusion h
  | succ f ih =>
    intro t tf h
    unfold prepare_channel_wait at h
    split at h
    · exact ih (t + 1) tf h
    · rw [(Option.some.inj h).symm]
      omega

/-- Claim C5: when the spendable balance toward the destination already
reaches the requested amount, `_prepare_channel` performs no chain or channel
mutation; and after any successful run the observed balance suffices, so an
immediately repeated call with the state unchanged performs zero additional
mutations. -/
theorem claim_C5_prepare_channel_idempotent (spendable : Nat → Int)
    (amount_sat : Int) (fuel : Nat) :
    (amount_sat ≤ spendable 0 →
      prepare_channel spendable amount_sat fuel = some ([], spendable 0))
    ∧ (∀ ms s, prepare_channel spendable amount_sat fuel = some (ms, s) →
        amount_sat ≤ s
        ∧ ∀ fuel2, prepare_channel (fun _ => s) amount_sat fuel2 = some ([], s)) := by
  constructor
  · intro hge
    unfold prepare_channel
    rw [if_neg (by omega)]
  · intro ms s hrun
    unfold prepare_channel at hrun
    split at hrun
    · cases hwait : prepare_channel_wait spendable amount_sat fuel 1 with
      | none =>
        rw [hwait] at hrun
        exact absurd hrun (by simp)
      | some t =>
        rw [hwait] at hrun
        have hinj := Option.some.inj hrun
        have hs : s = spendable t := (congrArg Prod.snd hinj).symm
        have hge := prepare_channel_wait_ge spendable amount_sat fuel 1 t hwait
        have hsge : amount_sat ≤ s := by omega
        refine ⟨hsge, fun fuel2 => ?_⟩
        unfold prepare_channel
        rw [if_neg (show ¬(s < amount_sat) by omega)]
    · have hinj := Option.some.inj hrun
      have hs : s = spendable 0 := (congrArg Prod.snd hinj).symm
      rename_i hnlt
      have hsge : amount_sat ≤ s := by omega
      refine ⟨hsge, fun fuel2 => ?_⟩
      unfold prepare_channel
      rw [if_neg (show ¬(s < amount_sat) by omega)]

/-- Claim C5 witness: a source with spendable balance five and a request for
three sats, run through both conjuncts of the idempotence theorem. -/
theorem claim_C5_witness :
    prepare_channel (fun _ => (5 : Int)) 3 0 = some ([], 5)
    ∧ prepare_channel (fun _ => (5 : Int)) 3 7 = some ([], 5) := by
  have h := claim_C5_prepare_channel_idempotent (fun _ => (5 : Int)) 3 0
  refine ⟨h.1 (by norm_num), ?_⟩
  exact (h.2 [] 5 (h.1 (by norm_num))).2 7

/-! ### Claim theorems about scenario loading -/

theorem load_scenario_nodes_ok (ds : List NodeDecl) (acc : List (List Char))
    (h : ∀ d ∈ ds, validNodeName d.name = true ∧ d.nodeType = ("lnd").toList) :
    load_scenario_nodes ds acc = (acc ++ ds.map (fun d => d.name), none) := by
  induction ds generalizing acc with
  | nil => simp [load_scenario_nodes]
  | cons d rest ih =>
    have hd := h d (by simp)
    unfold load_scenario_nodes
    rw [if_neg (fun hc => hc hd.1), if_neg (fun hc => hc hd.2)]
    rw [ih _ (fun x hx => h x (by simp [hx]))]
    simp

theorem load_scenario_nodes_fail (pre : List NodeDecl) (d : NodeDecl)
    (post : List NodeDecl) (acc : List (List Char))
    (hpre : ∀ x ∈ pre, validNodeName x.name = true ∧ x.nodeType = ("lnd").toList)
    (hbad : ¬(validNodeName d.name = true ∧ d.nodeType = ("lnd").toList)) :
    load_scenario_nodes (pre ++ d :: post) acc
      = (acc ++ pre.map (fun x => x.name),
         some (if validNodeName d.name then .unsupportedType else .invalidName)) := by
  induction pre generalizing acc with
  | nil =>
    simp only [List.nil_append, List.map_nil, List.append_nil]
    unfold load_scenario_nodes
    by_cases hn : validNodeName d.name = true
    · have ht : d.nodeType ≠ ("lnd").toList := fun hc => hbad ⟨hn, hc⟩
      rw [if_neg (fun hc => hc hn), if_pos ht, if_pos hn]
    · rw [if_pos hn, if_neg (fun hc => hn hc)]
  | cons x pre ih =>
    have hx := hpre x (by simp)
    simp only [List.cons_append]
    unfold load_scenario_nodes
    rw [if_neg (fun hc => hc hx.1), if_neg (fun hc => hc hx.2)]
    rw [ih _ (fun y hy => hpre y (by simp [hy]))]
    simp

/-- Claim C6 counterexample: a scenario declaring a valid node `a` followed by
an invalid node name spawns `a` before failing, so the load is a partial
application, contradicting the claim that a validation failure leaves no node
spawned. -/
theorem claim_C6_counterexample :
    load_scenario [⟨("a").toList, ("lnd").toList⟩, ⟨("A").toList, ("lnd").toList⟩]
        = ([("a").toList], some .invalidName)
    ∧ ([("a").toList] : List (List Char)) ≠ [] :=
  ⟨rfl, by simp⟩

/-- Claim C6 amended: `load_scenario` validates each declaration immediately
before spawning that node, in declaration order: when every name matches the
identifier grammar and every type is `lnd` all nodes are spawned and no error
is raised, and on the first invalid declaration the load fails having already
spawned exactly the nodes declared before it. -/
theorem claim_C6_load_scenario (ds : List NodeDecl) :
    ((∀ d ∈ ds, validNodeName d.name = true ∧ d.nodeType = ("lnd").toList) →
      load_scenario ds = (ds.map (fun d => d.name), none))
    ∧ (∀ pre d post, ds = pre ++ d :: post →
        (∀ x ∈ pre, validNodeName x.name = true ∧ x.nodeType = ("lnd").toList) →
        ¬(validNodeName d.name = true ∧ d.nodeType = ("lnd").toList) →
        load_scenario ds
          = (pre.map (fun x => x.name),
             some (if validNodeName d.name then .unsupportedType else .invalidName))) := by
  constructor
  · intro h
    unfold load_scenario
    rw [load_scenario_nodes_ok ds [] h]
    simp
  · intro pre d post hds hpre hbad
    subst hds
    unfold load_scenario
    rw [load_scenario_nodes_fail pre d post [] hpre hbad]
    simp

/-- Claim C6 witness: a fully valid scenario spawns both nodes; a scenario
with an unsupported second node type spawns exactly the first node. -/
theorem claim_C6_load_scenario_witness :
    load_scenario [⟨("alice").toList, ("lnd").toList⟩, ⟨("bob").toList, ("lnd").toList⟩]
        = ([("alice").toList, ("bob").toList], none)
    ∧ load_scenario [⟨("ok").toList, ("lnd").toList⟩, ⟨("x").toList, ("eclair").toList⟩]
        = ([("ok").toList], some .unsupportedType) := by
  constructor
  · exact (claim_C6_load_scenario _).1 (by decide)
  · exact (claim_C6_load_scenario _).2 [⟨("ok").toList, ("lnd").toList⟩]
      ⟨("x").toList, ("eclair").toList⟩ [] rfl (by decide) (by decide)

end LnpbpTestkit
